import Mathlib

/-!
# EaZip — verification of the archive-encryption app

A shallow embedding of the EaZip sources. The user-interface layer is embedded
from `src/src/App.tsx`; the archive-encryption engine (the Tauri backend invoked
through `invoke`) is not part of the frontend sources, so it is modelled from
the specification, with each such definition marked `Modelled from the spec`.
-/

namespace EaZip

/-! ## Data model shared by the UI layer (from `src/src/App.tsx`) -/

/-- From `App.tsx`: an input entry `{ path: string; isDir: boolean }` of the
dropped/selected file list. -/
structure DroppedFile where
  path : String
  isDir : Bool
deriving DecidableEq, Repr

/-- From `App.tsx`: the three values of the `encryptionMethod` combobox. -/
inductive EncryptionMethod
  | Aes256
  | CryptoZip
  | SevenZip
deriving DecidableEq, Repr

/-- From `App.tsx`: the two values of the `mode` tab state. -/
inductive Mode
  | encrypt
  | decrypt
deriving DecidableEq, Repr

/-! ## Input-list accumulation (from `selectFiles` / `selectFolder`) -/

/-- From `App.tsx` `selectFiles`/`selectFolder` (lines 113–120 and 137–143):
append the newly selected entries to the previous list, filtering out any whose
path is already present (the `existingPaths` set built from `prevFiles`). -/
def addFiles (prevFiles newFileObjects : List DroppedFile) : List DroppedFile :=
  prevFiles ++ newFileObjects.filter fun f => !((prevFiles.map (·.path)).contains f.path)

/-- From `App.tsx` `selectFiles`: selected paths become entries with `isDir := false`. -/
def selectFilesUpdate (prevFiles : List DroppedFile) (selected : List String) :
    List DroppedFile :=
  addFiles prevFiles (selected.map fun p => { path := p, isDir := false })

/-- From `App.tsx` `selectFolder`: selected paths become entries with `isDir := true`. -/
def selectFolderUpdate (prevFiles : List DroppedFile) (selected : List String) :
    List DroppedFile :=
  addFiles prevFiles (selected.map fun p => { path := p, isDir := true })

/-- The spec's wording for deduplication ("deduplicated by absolute path,
last-seen order preserved"): adding entries moves a re-added path to the
position of its most recent occurrence.  Stated here only to compare against
`addFiles`, the behaviour of the source. -/
def lastSeenDedupAdd (prevFiles newFileObjects : List DroppedFile) : List DroppedFile :=
  (prevFiles ++ newFileObjects).foldl
    (fun acc f => acc.filter (fun g => g.path != f.path) ++ [f]) []

/-! ## Drag-and-drop metadata handling (from the `onDragDropEvent` handler) -/

/-- From `App.tsx` lines 46–59: on a drop, the handler asks the backend for
metadata; on success the reported entries are used unchanged, and on failure
every dropped path falls back to `{ path, isDir: false }`. -/
def handleDrop (paths : List String) (metadata : Except String (List DroppedFile)) :
    List DroppedFile :=
  match metadata with
  | .ok m => m
  | .error _ => paths.map fun p => { path := p, isDir := false }

/-! ## Default output path and save-dialog filters (from `encryptFiles`) -/

/-- From `App.tsx` line 190: `firstFile.path.split(/[/\\]/).pop() || "archive"`
(JavaScript `split` never yields an empty array, and `pop()` of a list ending in
an empty segment is falsy, defaulting to `"archive"`). -/
def lastSegment (path : String) : String :=
  let s := (path.split fun c => c == '/' || c == '\\').getLastD ""
  if s = "" then "archive" else s

/-- From `App.tsx` line 194: `baseName.replace(/\.[^/.]+$/, "")` — remove a
final `.` followed by one or more characters none of which is `/` or `.`. -/
def stripExt (s : String) : String :=
  let rcs := s.data.reverse
  let ext := rcs.takeWhile fun c => c != '.' && c != '/'
  if 0 < ext.length ∧ (rcs.drop ext.length).head? = some '.' then
    String.mk ((rcs.drop (ext.length + 1)).reverse)
  else s

/-- From `App.tsx`: the string value held by the `encryptionMethod` state. -/
def methodLabel : EncryptionMethod → String
  | .Aes256 => "Aes256"
  | .CryptoZip => "CryptoZip"
  | .SevenZip => "SevenZip"

/-- From `App.tsx` lines 182–184: the extension list of the save-dialog filter. -/
def filterExtensions (m : EncryptionMethod) : List String :=
  if m = .SevenZip then ["7z"] else ["zip"]

/-- From `App.tsx` lines 186–199: the default output path offered by the save
dialog, `"${baseName}_${encryptionMethod}.${ext}"` built from the first selected
entry. -/
def defaultArchivePath (droppedFiles : List DroppedFile) (m : EncryptionMethod) : String :=
  match droppedFiles with
  | [] => "archive"
  | firstFile :: _ =>
    let baseName0 := lastSegment firstFile.path
    let baseName := if firstFile.isDir then baseName0 else stripExt baseName0
    let ext := if m = .SevenZip then "7z" else "zip"
    baseName ++ "_" ++ methodLabel m ++ "." ++ ext

/-- `s` ends in the suffix `suf`. -/
def endsIn (s suf : String) : Prop := ∃ b, s = b ++ suf

/-! ## The encrypt / decrypt UI runs (from `encryptFiles` / `decryptFiles`) -/

/-- From `App.tsx`: the UI state fields touched by the two run handlers. -/
structure UIState where
  droppedFiles : List DroppedFile
  password : String
  errorMessage : Option String
  successMessage : Option String
  zipOutputPath : Option String
  isEncrypting : Bool
  progress : Nat
deriving DecidableEq, Repr

/-- The observable resolution of a run handler. -/
inductive RunOutcome
  | notStarted
  | cancelled
  | success
  | failure (e : String)
deriving DecidableEq, Repr

/-- Result of one UI run: the final component state, whether the backend
command was issued, whether the handler ever entered the running state
(`setIsEncrypting(true)`), and the observable outcome. -/
structure RunReturn where
  finalState : UIState
  invoked : Bool
  enteredRunning : Bool
  outcome : RunOutcome
deriving DecidableEq, Repr

/-- From `App.tsx` line 214: the backend's cancellation sentinel string. -/
def cancelSentinel : String := "Encryption cancelled by user."

/-- From `App.tsx` lines 166–167: the empty-selection validation message. -/
def selectFilesFirstMsg : String :=
  "Veuillez sélectionner ou glisser-déposer des fichiers d\x27abord."

/-- From `App.tsx` line 173: the empty-password validation message. -/
def enterPasswordMsg : String := "Veuillez entrer ou générer un mot de passe."

/-- From `App.tsx` lines 164–235, `encryptFiles`.  `savePath` is the result of
the save dialog (`none` when the user cancelled it), `backend` the settled
promise of the `encrypt_files` invoke (`Except.error` for a rejected promise).
The two early validation returns happen before the `try` block; the `finally`
block clears `isEncrypting`, `progress` and `droppedFiles` on every exit path
of the `try`. -/
def encryptFiles (s : UIState) (savePath : Option String)
    (backend : Except String String) : RunReturn :=
  if s.droppedFiles = [] then
    { finalState := { s with errorMessage := some selectFilesFirstMsg },
      invoked := false, enteredRunning := false, outcome := .notStarted }
  else if s.password = "" then
    { finalState := { s with errorMessage := some enterPasswordMsg },
      invoked := false, enteredRunning := false, outcome := .notStarted }
  else
    let s1 : UIState := { s with errorMessage := none, isEncrypting := true, progress := 0 }
    let body : UIState × Bool × RunOutcome :=
      match savePath with
      | none => (s1, false, .cancelled)
      | some sp =>
        match backend with
        | .ok r =>
          if r = cancelSentinel then (s1, true, .cancelled)
          else ({ s1 with successMessage := some ("Archive exportée vers " ++ sp),
                          zipOutputPath := some sp }, true, .success)
        | .error e =>
          if e = cancelSentinel then (s1, true, .cancelled)
          else ({ s1 with errorMessage := some ("Échec du chiffrement : " ++ e) },
                true, .failure e)
    { finalState := { body.1 with isEncrypting := false, progress := 0, droppedFiles := [] },
      invoked := body.2.1, enteredRunning := true, outcome := body.2.2 }

/-- From `App.tsx` lines 237–281, `decryptFiles`.  `outputDir` is the result of
the directory dialog (`none` when the user cancelled it); `backend` the settled
result of the `decrypt_file` invoke loop.  The password validation guard is
`mode === 'encrypt' && !password`, reading the component's `mode` state. -/
def decryptFiles (s : UIState) (mode : Mode) (outputDir : Option String)
    (backend : Except String Unit) : RunReturn :=
  if s.droppedFiles = [] then
    { finalState := { s with errorMessage := some selectFilesFirstMsg },
      invoked := false, enteredRunning := false, outcome := .notStarted }
  else if mode = .encrypt ∧ s.password = "" then
    { finalState := { s with errorMessage := some enterPasswordMsg },
      invoked := false, enteredRunning := false, outcome := .notStarted }
  else
    let s1 : UIState := { s with errorMessage := none, isEncrypting := true, progress := 0 }
    let body : UIState × Bool × RunOutcome :=
      match outputDir with
      | none => (s1, false, .cancelled)
      | some dir =>
        match backend with
        | .ok _ => ({ s1 with successMessage := some ("Fichiers déchiffrés vers " ++ dir),
                              zipOutputPath := some dir }, true, .success)
        | .error e => ({ s1 with errorMessage := some ("Échec du déchiffrement : " ++ e) },
                       true, .failure e)
    { finalState := { body.1 with isEncrypting := false, progress := 0, droppedFiles := [] },
      invoked := body.2.1, enteredRunning := true, outcome := body.2.2 }

/-! ## Engine model

The archive-encryption engine (the Rust backend reached through `invoke`) is
not among the frontend sources; the definitions below are modelled from the
specification (§3, §4.3, §4.5, §7). -/

/-- Modelled from the spec (§7): the error kinds of the engine. -/
inductive EngineError
  | NotFound
  | SessionBusy
  | InvalidInput
  | WrongPassword
  | ToolUnavailable
  | ToolExecutionFailed
  | IoFailure
deriving DecidableEq, Repr

/-- Modelled from the spec (§4.5): terminal results of a session. -/
inductive RunResult
  | Completed
  | Cancelled
  | Failed (e : EngineError)
deriving DecidableEq, Repr

/-- Modelled from the spec (§6): events pushed toward the presentation layer —
progress ticks and the single terminal event. -/
inductive Ev
  | tick (percent : Nat)
  | terminal (r : RunResult)
deriving DecidableEq, Repr

/-- Modelled from the spec (§4.1): a flat input file with its absolute path,
archive-relative name and byte contents. -/
structure FileEntry where
  absolutePath : String
  archiveName : String
  content : List Nat
deriving DecidableEq, Repr

/-- A filesystem, as the engine sees it: an association list from absolute path
to file bytes. -/
abbrev FS := List (String × List Nat)

/-- Remove the file at path `p`. -/
def FS.delete (fs : FS) (p : String) : FS := fs.filter fun e => e.1 != p

/-- Write (create or overwrite) the file at path `p`. -/
def FS.write (fs : FS) (p : String) (b : List Nat) : FS := (p, b) :: FS.delete fs p

/-- Read the file at path `p`, if present. -/
def FS.read (fs : FS) (p : String) : Option (List Nat) :=
  (fs.find? fun e => e.1 == p).map (·.2)

/-- Remove every path in `ps`. -/
def FS.deleteAll (fs : FS) (ps : List String) : FS := ps.foldl FS.delete fs

/-! ### The three encryption strategies -/

/-- Modelled from the spec (§4.3): a method-specific tag mixed into the key
schedule, so the three strategy variants produce distinct containers. -/
def methodTag : EncryptionMethod → Nat
  | .Aes256 => 0
  | .CryptoZip => 1
  | .SevenZip => 2

/-- Modelled from the spec (§4.3): the numeric digest of the password feeding
the password-based key derivation. -/
def pwHash (password : String) : Nat := (password.data.map Char.toNat).sum

/-- Modelled from the spec (§4.3): byte `i` of the password-derived key stream
for the given method and per-archive salt. -/
def keyByte (m : EncryptionMethod) (password : String) (salt i : Nat) : Nat :=
  (pwHash password + salt + methodTag m + i) % 256

/-- One byte of content encryption: combine a plaintext byte with a key byte. -/
def encByte (k b : Nat) : Nat := (b + k) % 256

/-- One byte of content decryption, inverse of `encByte` on bytes. -/
def decByte (k c : Nat) : Nat := (c + 256 - k % 256) % 256

/-- Encrypt a byte list with the key stream starting at index `i`. -/
def encBytes (m : EncryptionMethod) (password : String) (salt : Nat) :
    Nat → List Nat → List Nat
  | _, [] => []
  | i, b :: rest =>
    encByte (keyByte m password salt i) b :: encBytes m password salt (i + 1) rest

/-- Decrypt a byte list with the key stream starting at index `i`. -/
def decBytes (m : EncryptionMethod) (password : String) (salt : Nat) :
    Nat → List Nat → List Nat
  | _, [] => []
  | i, c :: rest =>
    decByte (keyByte m password salt i) c :: decBytes m password salt (i + 1) rest

/-- Encrypt a list of character codes (used for hidden entry names; codes stay
exact, no byte truncation). -/
def encCodes (m : EncryptionMethod) (password : String) (salt : Nat) :
    Nat → List Nat → List Nat
  | _, [] => []
  | i, c :: rest =>
    (c + keyByte m password salt i) :: encCodes m password salt (i + 1) rest

/-- Decrypt a list of character codes, inverse of `encCodes`. -/
def decCodes (m : EncryptionMethod) (password : String) (salt : Nat) :
    Nat → List Nat → List Nat
  | _, [] => []
  | i, c :: rest =>
    (c - keyByte m password salt i) :: decCodes m password salt (i + 1) rest

/-- Modelled from the spec (§4.3, SevenZip): entry names are stored in clear by
the zip-based methods, and encrypted ("hidden") by the SevenZip variant. -/
inductive StoredName
  | plain (s : String)
  | hidden (cipher : List Nat)
deriving DecidableEq, Repr

/-- Modelled from the spec (§3): one container entry — its stored name and its
encrypted contents. -/
structure ArchiveEntry where
  storedName : StoredName
  cipher : List Nat
deriving DecidableEq, Repr

/-- Modelled from the spec (§3): the on-disk container: the method that wrote
it, the per-archive salt, the key-verification field, and the entries.  The
verification field — "header data allowing a password check without fully
decrypting content" — is modelled as an injective tag of the password (here the
password itself), abstracting the real key-check material. -/
structure Archive where
  method : EncryptionMethod
  salt : Nat
  verifier : String
  entries : List ArchiveEntry
deriving DecidableEq, Repr

/-- Store an entry name for method `m`: hidden for SevenZip, in clear otherwise. -/
def storeName (m : EncryptionMethod) (password : String) (salt : Nat)
    (name : String) : StoredName :=
  match m with
  | .SevenZip => .hidden (encCodes m password salt 0 (name.data.map Char.toNat))
  | _ => .plain name

/-- Recover an entry name stored by `storeName`. -/
def loadName (m : EncryptionMethod) (password : String) (salt : Nat) :
    StoredName → String
  | .plain s => s
  | .hidden cipher => String.mk ((decCodes m password salt 0 cipher).map Char.ofNat)

/-- Encrypt one input file into a container entry. -/
def encryptEntry (m : EncryptionMethod) (password : String) (salt : Nat)
    (f : FileEntry) : ArchiveEntry :=
  { storedName := storeName m password salt f.archiveName,
    cipher := encBytes m password salt 0 f.content }

/-- Modelled from the spec (§4.3): produce the encrypted container for a file
list, a password and a per-archive random salt (the salt is an entropy input). -/
def encryptArchive (m : EncryptionMethod) (files : List FileEntry)
    (password : String) (salt : Nat) : Archive :=
  { method := m, salt := salt, verifier := password,
    entries := files.map (encryptEntry m password salt) }

/-- Decrypt one container entry back to `(archive name, contents)`. -/
def decryptEntry (m : EncryptionMethod) (password : String) (salt : Nat)
    (e : ArchiveEntry) : String × List Nat :=
  (loadName m password salt e.storedName, decBytes m password salt 0 e.cipher)

/-- Modelled from the spec (§4.3, §7): decrypt a container.  The verification
field is checked first — a mismatch fails closed with `WrongPassword` before
any plaintext is produced; only then are the entries decoded. -/
def decryptArchive (a : Archive) (password : String) :
    Except EngineError (List (String × List Nat)) :=
  if a.verifier = password then
    .ok (a.entries.map (decryptEntry a.method password a.salt))
  else
    .error .WrongPassword

/-! ### The session runs: progress, cancellation, cleanup -/

/-- Outcome of one engine run: the final filesystem, the pushed event trace,
the terminal result, and the output paths written and still present on return. -/
structure RunOut where
  fs : FS
  trace : List Ev
  result : RunResult
  written : List String
deriving DecidableEq, Repr

/-- Has cancellation been requested by step `i`?  The cancel request is
modelled by the step index at which it arrives. -/
def cancelRequested (cancelAt : Option Nat) (i : Nat) : Bool :=
  match cancelAt with
  | some k => decide (k ≤ i)
  | none => false

/-- Modelled from the spec (§4.3): total input size summed by the up-front
pre-scan pass. -/
def totalSize (files : List FileEntry) : Nat := (files.map (·.content.length)).sum

/-- Total encrypted size of a container's entries (the decrypt pre-scan). -/
def totalCipher (entries : List ArchiveEntry) : Nat :=
  (entries.map (·.cipher.length)).sum

/-- Modelled from the spec: the on-disk bytes of a (partial) archive container.
The exact layout is irrelevant to the claims; the salt followed by the entries'
cipher bytes stands in for the container encoding. -/
def serializeArchive (salt : Nat) (entries : List ArchiveEntry) : List Nat :=
  salt :: (entries.map ArchiveEntry.cipher).flatten

/-- Modelled from the spec (§4.3, §4.5): the encrypt run loop.  It processes
one file per step; at each boundary it checks the cancellation flag first (the
spec: "cancellation always wins"), then an injected I/O failure (`failAt` is
the step at which the disk write fails); otherwise it appends the encrypted
entry, rewrites the partial archive at `outputPath`, and emits the progress
tick `100 * bytesDone / totalBytes`.  On cancellation or failure the partial
output file is deleted before the terminal event is returned. -/
def encryptLoop (m : EncryptionMethod) (password : String) (salt : Nat)
    (outputPath : String) (total : Nat) (cancelAt failAt : Option Nat) :
    List FileEntry → Nat → Nat → List ArchiveEntry → FS → RunOut
  | [], _, _, written, fs =>
    { fs := FS.write fs outputPath (serializeArchive salt written),
      trace := [.terminal .Completed], result := .Completed,
      written := [outputPath] }
  | f :: rest, i, done, written, fs =>
    if cancelRequested cancelAt i then
      { fs := FS.delete fs outputPath, trace := [.terminal .Cancelled],
        result := .Cancelled, written := [] }
    else if failAt = some i then
      { fs := FS.delete fs outputPath,
        trace := [.terminal (.Failed .IoFailure)],
        result := .Failed .IoFailure, written := [] }
    else
      let written2 := written ++ [encryptEntry m password salt f]
      let done2 := done + f.content.length
      let fs2 := FS.write fs outputPath (serializeArchive salt written2)
      let out := encryptLoop m password salt outputPath total cancelAt failAt
        rest (i + 1) done2 written2 fs2
      { out with trace := .tick (100 * done2 / total) :: out.trace }

/-- Modelled from the spec (§4.5): an encrypt session — validation first
(non-empty input list, non-empty password; failures return `Failed` before any
byte is written), then the strategy loop with the pre-scanned total size. -/
def runEncrypt (fs : FS) (files : List FileEntry) (password : String)
    (m : EncryptionMethod) (salt : Nat) (outputPath : String)
    (cancelAt failAt : Option Nat) : RunOut :=
  if files = [] ∨ password = "" then
    { fs := fs, trace := [.terminal (.Failed .InvalidInput)],
      result := .Failed .InvalidInput, written := [] }
  else
    encryptLoop m password salt outputPath (totalSize files) cancelAt failAt
      files 0 0 [] fs

/-- Modelled from the spec (§4.3, §4.5): the decrypt run loop.  One output file
is written into `outputDir` per entry; cancellation is checked first at each
boundary, then the injected I/O failure; on abort every file written so far by
this run is deleted before the terminal event is returned. -/
def decryptLoop (m : EncryptionMethod) (password : String) (salt : Nat)
    (outputDir : String) (total : Nat) (cancelAt failAt : Option Nat) :
    List ArchiveEntry → Nat → Nat → List String → FS → RunOut
  | [], _, _, writtenPaths, fs =>
    { fs := fs, trace := [.terminal .Completed], result := .Completed,
      written := writtenPaths }
  | e :: rest, i, done, writtenPaths, fs =>
    if cancelRequested cancelAt i then
      { fs := FS.deleteAll fs writtenPaths, trace := [.terminal .Cancelled],
        result := .Cancelled, written := [] }
    else if failAt = some i then
      { fs := FS.deleteAll fs writtenPaths,
        trace := [.terminal (.Failed .IoFailure)],
        result := .Failed .IoFailure, written := [] }
    else
      let nb := decryptEntry m password salt e
      let p := outputDir ++ "/" ++ nb.1
      let done2 := done + e.cipher.length
      let out := decryptLoop m password salt outputDir total cancelAt failAt
        rest (i + 1) done2 (writtenPaths ++ [p]) (FS.write fs p nb.2)
      { out with trace := .tick (100 * done2 / total) :: out.trace }

/-- The output paths a decrypt run of `a` would create under `outputDir`. -/
def decryptPaths (a : Archive) (password : String) (outputDir : String) :
    List String :=
  a.entries.map fun e => outputDir ++ "/" ++ (decryptEntry a.method password a.salt e).1

/-- Modelled from the spec (§4.5, §7): a decrypt session — the key-verification
field is checked before anything is written; a mismatch returns
`Failed WrongPassword` with zero output files, otherwise the loop streams the
entries out. -/
def runDecrypt (fs : FS) (a : Archive) (password : String) (outputDir : String)
    (cancelAt failAt : Option Nat) : RunOut :=
  if a.verifier = password then
    decryptLoop a.method password a.salt outputDir (totalCipher a.entries)
      cancelAt failAt a.entries 0 0 [] fs
  else
    { fs := fs, trace := [.terminal (.Failed .WrongPassword)],
      result := .Failed .WrongPassword, written := [] }

/-- A well-formed session event trace: some monotone progress ticks bounded by
100, followed by exactly one terminal event, with nothing after it. -/
def TraceOk (trace : List Ev) : Prop :=
  ∃ (ts : List Nat) (r : RunResult), trace = ts.map Ev.tick ++ [Ev.terminal r] ∧
    ts.Chain' (· ≤ ·) ∧ ∀ p ∈ ts, p ≤ 100

/-! ## Helper lemmas -/

theorem char_ofNat_toNat (c : Char) : Char.ofNat c.toNat = c := by
  have h : c.toNat.isValidChar := c.valid
  simp only [Char.ofNat, h, dif_pos, Char.ofNatAux]
  refine Char.eq_of_val_eq (UInt32.eq_of_toBitVec_eq ?_)
  apply BitVec.eq_of_toNat_eq
  simp [Char.toNat, BitVec.toNat_ofNatLt, UInt32.toNat]

theorem decByte_encByte (k b : Nat) (hb : b < 256) : decByte k (encByte k b) = b := by
  unfold decByte encByte
  omega

theorem decBytes_encBytes (m : EncryptionMethod) (password : String) (salt : Nat) :
    ∀ (i : Nat) (content : List Nat), (∀ b ∈ content, b < 256) →
      decBytes m password salt i (encBytes m password salt i content) = content := by
  intro i content
  induction content generalizing i with
  | nil => intro _; rfl
  | cons b rest ih =>
    intro h
    have hb : b < 256 := h b (List.mem_cons_self b rest)
    have hr : ∀ x ∈ rest, x < 256 := fun x hx => h x (List.mem_cons_of_mem b hx)
    simp only [encBytes, decBytes, ih (i + 1) hr, decByte_encByte _ _ hb]

theorem decCodes_encCodes (m : EncryptionMethod) (password : String) (salt : Nat) :
    ∀ (i : Nat) (codes : List Nat),
      decCodes m password salt i (encCodes m password salt i codes) = codes := by
  intro i codes
  induction codes generalizing i with
  | nil => rfl
  | cons c rest ih =>
    simp only [encCodes, decCodes, ih (i + 1), Nat.add_sub_cancel]

theorem loadName_storeName (m : EncryptionMethod) (password : String) (salt : Nat)
    (name : String) : loadName m password salt (storeName m password salt name) = name := by
  cases m with
  | Aes256 => rfl
  | CryptoZip => rfl
  | SevenZip =>
    simp only [storeName, loadName, decCodes_encCodes, List.map_map]
    rw [show (Char.ofNat ∘ Char.toNat) = (id : Char → Char) from
      funext fun c => char_ofNat_toNat c]
    simp

theorem decryptEntry_encryptEntry (m : EncryptionMethod) (password : String)
    (salt : Nat) (f : FileEntry) (hb : ∀ b ∈ f.content, b < 256) :
    decryptEntry m password salt (encryptEntry m password salt f) =
      (f.archiveName, f.content) := by
  simp only [decryptEntry, encryptEntry, loadName_storeName,
    decBytes_encBytes m password salt 0 f.content hb]

theorem FS.delete_of_read_none (fs : FS) (p : String) (h : FS.read fs p = none) :
    FS.delete fs p = fs := by
  unfold FS.read at h
  unfold FS.delete
  rw [List.filter_eq_self]
  intro e he
  have hfind := List.find?_eq_none.mp (Option.map_eq_none.mp h) e he
  simpa using hfind

theorem FS.delete_write_same (fs : FS) (p : String) (b : List Nat) :
    FS.delete (FS.write fs p b) p = FS.delete fs p := by
  unfold FS.write FS.delete
  rw [List.filter_cons]
  simp [List.filter_filter]

theorem FS.delete_write_of_ne (fs : FS) (p q : String) (b : List Nat) (h : p ≠ q) :
    FS.delete (FS.write fs p b) q = FS.write (FS.delete fs q) p b := by
  unfold FS.write FS.delete
  rw [List.filter_cons]
  have : ((p, b).1 != q) = true := by simpa using h
  rw [if_pos this]
  simp [List.filter_filter, Bool.and_comm]

theorem FS.deleteAll_write_of_not_mem (fs : FS) (p : String) (b : List Nat)
    (ps : List String) (h : p ∉ ps) :
    FS.deleteAll (FS.write fs p b) ps = FS.write (FS.deleteAll fs ps) p b := by
  induction ps generalizing fs with
  | nil => rfl
  | cons q rest ih =>
    have hpq : p ≠ q := fun hc => h (hc ▸ List.mem_cons_self q rest)
    have hrest : p ∉ rest := fun hc => h (List.mem_cons_of_mem q hc)
    unfold FS.deleteAll
    simp only [List.foldl_cons]
    rw [FS.delete_write_of_ne fs p q b hpq]
    exact ih (FS.delete fs q) hrest

theorem FS.deleteAll_append (fs : FS) (ps : List String) (p : String) :
    FS.deleteAll fs (ps ++ [p]) = FS.delete (FS.deleteAll fs ps) p := by
  unfold FS.deleteAll
  rw [List.foldl_append]
  rfl

theorem encryptLoop_abort (m : EncryptionMethod) (password : String) (salt : Nat)
    (outputPath : String) (total : Nat) (cancelAt failAt : Option Nat) :
    ∀ (files : List FileEntry) (i done : Nat) (written : List ArchiveEntry) (fs : FS),
      (encryptLoop m password salt outputPath total cancelAt failAt
          files i done written fs).result ≠ .Completed →
      (encryptLoop m password salt outputPath total cancelAt failAt
          files i done written fs).fs = FS.delete fs outputPath := by
  intro files
  induction files with
  | nil =>
    intro i done written fs h
    exact absurd rfl h
  | cons f rest ih =>
    intro i done written fs h
    unfold encryptLoop at h ⊢
    by_cases hc : cancelRequested cancelAt i = true
    · rw [if_pos hc]
    · rw [if_neg hc] at h ⊢
      by_cases hf : failAt = some i
      · rw [if_pos hf]
      · rw [if_neg hf] at h ⊢
        simp only at h ⊢
        rw [ih _ _ _ _ h]
        exact FS.delete_write_same fs outputPath _

theorem decryptLoop_abort (m : EncryptionMethod) (password : String) (salt : Nat)
    (outputDir : String) (total : Nat) (cancelAt failAt : Option Nat) :
    ∀ (entries : List ArchiveEntry) (i done : Nat) (writtenPaths : List String)
      (fs fs0 : FS),
      FS.deleteAll fs writtenPaths = fs0 →
      (entries.map fun e => outputDir ++ "/" ++ (decryptEntry m password salt e).1).Nodup →
      (∀ p ∈ entries.map fun e => outputDir ++ "/" ++ (decryptEntry m password salt e).1,
          p ∉ writtenPaths) →
      (∀ p ∈ entries.map fun e => outputDir ++ "/" ++ (decryptEntry m password salt e).1,
          FS.read fs0 p = none) →
      (decryptLoop m password salt outputDir total cancelAt failAt
          entries i done writtenPaths fs).result ≠ .Completed →
      (decryptLoop m password salt outputDir total cancelAt failAt
          entries i done writtenPaths fs).fs = fs0 := by
  intro entries
  induction entries with
  | nil =>
    intro i done writtenPaths fs fs0 _ _ _ _ h
    exact absurd rfl h
  | cons e rest ih =>
    intro i done writtenPaths fs fs0 h0 hnd hdis hfresh h
    have hpmem : (outputDir ++ "/" ++ (decryptEntry m password salt e).1) ∈
        (e :: rest).map fun x => outputDir ++ "/" ++ (decryptEntry m password salt x).1 := by
      simp
    unfold decryptLoop at h ⊢
    by_cases hc : cancelRequested cancelAt i = true
    · rw [if_pos hc]
      simp only
      rw [h0]
    · rw [if_neg hc] at h ⊢
      by_cases hf : failAt = some i
      · rw [if_pos hf]
        simp only
        rw [h0]
      · rw [if_neg hf] at h ⊢
        simp only at h ⊢
        set p := outputDir ++ "/" ++ (decryptEntry m password salt e).1 with hp
        have hpnotin : p ∉ writtenPaths := hdis p hpmem
        have hpfresh : FS.read fs0 p = none := hfresh p hpmem
        have h0' : FS.deleteAll (FS.write fs p (decryptEntry m password salt e).2)
            (writtenPaths ++ [p]) = fs0 := by
          rw [FS.deleteAll_append, FS.deleteAll_write_of_not_mem _ _ _ _ hpnotin,
            h0, FS.delete_write_same]
          exact FS.delete_of_read_none fs0 p hpfresh
        rw [List.map_cons] at hnd
        obtain ⟨hhead, hnd'⟩ := List.nodup_cons.mp hnd
        refine ih _ _ _ _ _ h0' hnd' ?_ ?_ h
        · intro q hq
          simp only [List.mem_append, List.mem_singleton]
          rintro (hq1 | hq1)
          · exact hdis q (List.mem_cons_of_mem _ hq) hq1
          · rw [hq1] at hq
            exact hhead hq
        · intro q hq
          exact hfresh q (List.mem_cons_of_mem _ hq)

theorem hundred_div_le (done total : Nat) (h : done ≤ total) :
    100 * done / total ≤ 100 := by
  rcases Nat.eq_zero_or_pos total with h0 | h0
  · subst h0
    simp
  · calc 100 * done / total ≤ 100 * total / total :=
        Nat.div_le_div_right (Nat.mul_le_mul_left _ h)
    _ = 100 := Nat.mul_div_cancel _ h0

theorem encryptLoop_trace (m : EncryptionMethod) (password : String) (salt : Nat)
    (outputPath : String) (total : Nat) (cancelAt failAt : Option Nat) :
    ∀ (files : List FileEntry) (i done : Nat) (written : List ArchiveEntry) (fs : FS),
      done + totalSize files = total →
      ∃ (ts : List Nat) (r : RunResult),
        (encryptLoop m password salt outputPath total cancelAt failAt
            files i done written fs).trace = ts.map Ev.tick ++ [Ev.terminal r] ∧
        (100 * done / total :: ts).Chain' (· ≤ ·) ∧ ∀ p ∈ ts, p ≤ 100 := by
  intro files
  induction files with
  | nil =>
    intro i done written fs _
    exact ⟨[], .Completed, rfl, List.chain'_singleton _, by simp⟩
  | cons f rest ih =>
    intro i done written fs htot
    unfold encryptLoop
    by_cases hc : cancelRequested cancelAt i = true
    · rw [if_pos hc]
      exact ⟨[], .Cancelled, rfl, List.chain'_singleton _, by simp⟩
    · rw [if_neg hc]
      by_cases hf : failAt = some i
      · rw [if_pos hf]
        exact ⟨[], .Failed .IoFailure, rfl, List.chain'_singleton _, by simp⟩
      · rw [if_neg hf]
        simp only
        have htot2 : (done + f.content.length) + totalSize rest = total := by
          simp only [totalSize, List.map_cons, List.sum_cons] at htot ⊢
          omega
        obtain ⟨ts, r, h1, h2, h3⟩ := ih (i + 1) (done + f.content.length)
          (written ++ [encryptEntry m password salt f])
          (FS.write fs outputPath
            (serializeArchive salt (written ++ [encryptEntry m password salt f]))) htot2
        refine ⟨100 * (done + f.content.length) / total :: ts, r, ?_, ?_, ?_⟩
        · simp only [List.map_cons, List.cons_append, h1]
        · refine List.chain'_cons.mpr ⟨?_, h2⟩
          exact Nat.div_le_div_right (Nat.mul_le_mul_left _ (Nat.le_add_right _ _))
        · intro q hq
          rcases List.mem_cons.mp hq with hq1 | hq1
          · subst hq1
            exact hundred_div_le _ _ (by omega)
          · exact h3 q hq1

theorem decryptLoop_trace (m : EncryptionMethod) (password : String) (salt : Nat)
    (outputDir : String) (total : Nat) (cancelAt failAt : Option Nat) :
    ∀ (entries : List ArchiveEntry) (i done : Nat) (writtenPaths : List String) (fs : FS),
      done + totalCipher entries = total →
      ∃ (ts : List Nat) (r : RunResult),
        (decryptLoop m password salt outputDir total cancelAt failAt
            entries i done writtenPaths fs).trace = ts.map Ev.tick ++ [Ev.terminal r] ∧
        (100 * done / total :: ts).Chain' (· ≤ ·) ∧ ∀ p ∈ ts, p ≤ 100 := by
  intro entries
  induction entries with
  | nil =>
    intro i done writtenPaths fs _
    exact ⟨[], .Completed, rfl, List.chain'_singleton _, by simp⟩
  | cons e rest ih =>
    intro i done writtenPaths fs htot
    unfold decryptLoop
    by_cases hc : cancelRequested cancelAt i = true
    · rw [if_pos hc]
      exact ⟨[], .Cancelled, rfl, List.chain'_singleton _, by simp⟩
    · rw [if_neg hc]
      by_cases hf : failAt = some i
      · rw [if_pos hf]
        exact ⟨[], .Failed .IoFailure, rfl, List.chain'_singleton _, by simp⟩
      · rw [if_neg hf]
        simp only
        have htot2 : (done + e.cipher.length) + totalCipher rest = total := by
          simp only [totalCipher, List.map_cons, List.sum_cons] at htot ⊢
          omega
        obtain ⟨ts, r, h1, h2, h3⟩ := ih (i + 1) (done + e.cipher.length)
          (writtenPaths ++ [outputDir ++ "/" ++ (decryptEntry m password salt e).1])
          (FS.write fs (outputDir ++ "/" ++ (decryptEntry m password salt e).1)
            (decryptEntry m password salt e).2) htot2
        refine ⟨100 * (done + e.cipher.length) / total :: ts, r, ?_, ?_, ?_⟩
        · simp only [List.map_cons, List.cons_append, h1]
        · refine List.chain'_cons.mpr ⟨?_, h2⟩
          exact Nat.div_le_div_right (Nat.mul_le_mul_left _ (Nat.le_add_right _ _))
        · intro q hq
          rcases List.mem_cons.mp hq with hq1 | hq1
          · subst hq1
            exact hundred_div_le _ _ (by omega)
          · exact h3 q hq1

/-! ## Claims -/

/-- C1: every run that ends in a terminal non-success state (`Failed` or
`Cancelled`) leaves the filesystem exactly as it was before the run started: no
partial archive remains at the encrypt output path (previously absent, distinct
output files on decrypt), and no partially written decrypted files remain in
the decrypt output directory; on cancellation partial output is deleted before
the `Cancelled` result is returned. -/
theorem C1_terminal_nonsuccess_restores_fs
    (fs : FS) (files : List FileEntry) (password : String) (m : EncryptionMethod)
    (salt : Nat) (outputPath : String) (a : Archive) (pw2 : String)
    (outputDir : String) (caE faE caD faD : Option Nat)
    (hfresh : FS.read fs outputPath = none)
    (hnd : (decryptPaths a pw2 outputDir).Nodup)
    (hdfresh : ∀ p ∈ decryptPaths a pw2 outputDir, FS.read fs p = none) :
    ((runEncrypt fs files password m salt outputPath caE faE).result ≠ .Completed →
      (runEncrypt fs files password m salt outputPath caE faE).fs = fs) ∧
    ((runDecrypt fs a pw2 outputDir caD faD).result ≠ .Completed →
      (runDecrypt fs a pw2 outputDir caD faD).fs = fs) := by
  simp only [decryptPaths] at hnd hdfresh
  constructor
  · intro h
    unfold runEncrypt at h ⊢
    by_cases hv : files = [] ∨ password = ""
    · rw [if_pos hv]
    · rw [if_neg hv] at h ⊢
      rw [encryptLoop_abort _ _ _ _ _ _ _ _ _ _ _ _ h]
      exact FS.delete_of_read_none fs outputPath hfresh
  · intro h
    unfold runDecrypt at h ⊢
    by_cases hv : a.verifier = pw2
    · rw [if_pos hv] at h ⊢
      exact decryptLoop_abort _ _ _ _ _ _ _ _ _ _ _ _ _ rfl hnd
        (fun p _ hc => List.not_mem_nil p hc) hdfresh h
    · rw [if_neg hv]

/-- Witness for C1: a run cancelled at step 0 (encrypt) and at step 0
(decrypt, after password verification) leaves the empty filesystem empty. -/
theorem C1_witness :
    FS.read [] "out" = none ∧
    (runEncrypt [] [⟨"/a", "a", [1]⟩] "p" .Aes256 0 "out" (some 0) none).fs = [] ∧
    (runDecrypt [] ⟨.Aes256, 0, "p", [⟨.plain "n", [5]⟩]⟩ "p" "d" (some 0) none).fs = [] :=
  ⟨by decide,
   (C1_terminal_nonsuccess_restores_fs [] [⟨"/a", "a", [1]⟩] "p" .Aes256 0 "out"
      ⟨.Aes256, 0, "p", [⟨.plain "n", [5]⟩]⟩ "p" "d" (some 0) none (some 0) none
      (by decide) (by decide) (by decide)).1 (by decide),
   (C1_terminal_nonsuccess_restores_fs [] [⟨"/a", "a", [1]⟩] "p" .Aes256 0 "out"
      ⟨.Aes256, 0, "p", [⟨.plain "n", [5]⟩]⟩ "p" "d" (some 0) none (some 0) none
      (by decide) (by decide) (by decide)).2 (by decide)⟩

/-- C2: for every non-empty file list, non-empty password and each of the three
methods, decrypting the archive produced by encrypt with the same password
reproduces byte-identical contents and identical relative archive names. -/
theorem C2_encrypt_decrypt_roundtrip (m : EncryptionMethod) (files : List FileEntry)
    (password : String) (salt : Nat)
    (hne : files ≠ []) (hpw : password ≠ "")
    (hbytes : ∀ f ∈ files, ∀ b ∈ f.content, b < 256) :
    decryptArchive (encryptArchive m files password salt) password =
      .ok (files.map fun f => (f.archiveName, f.content)) := by
  simp only [decryptArchive, encryptArchive, if_pos, List.map_map]
  congr 1
  apply List.map_congr_left
  intro f hf
  exact decryptEntry_encryptEntry m password salt f (hbytes f hf)

/-- Witness for C2: one file, SevenZip, password `"pw"`. -/
theorem C2_witness :
    decryptArchive (encryptArchive .SevenZip [⟨"/a", "a.txt", [104, 105]⟩] "pw" 7) "pw" =
      .ok [("a.txt", [104, 105])] := by
  have h := C2_encrypt_decrypt_roundtrip .SevenZip [⟨"/a", "a.txt", [104, 105]⟩] "pw" 7
    (by decide) (by decide) (by decide)
  simpa using h

/-- C3: decrypting with a password different from the one the archive was
encrypted with always yields `WrongPassword`, writes zero output files and
leaves the filesystem untouched — the verification check is the first thing the
decrypt run does, before any plaintext is produced. -/
theorem C3_wrong_password_fails_closed (m : EncryptionMethod) (files : List FileEntry)
    (password wrong : String) (salt : Nat) (fs : FS) (outputDir : String)
    (ca fa : Option Nat) (hne : wrong ≠ password) :
    decryptArchive (encryptArchive m files password salt) wrong =
      .error .WrongPassword ∧
    (runDecrypt fs (encryptArchive m files password salt) wrong outputDir ca fa).result =
      .Failed .WrongPassword ∧
    (runDecrypt fs (encryptArchive m files password salt) wrong outputDir ca fa).written =
      [] ∧
    (runDecrypt fs (encryptArchive m files password salt) wrong outputDir ca fa).fs = fs := by
  have hv : ¬((encryptArchive m files password salt).verifier = wrong) :=
    fun hc => hne (hc.symm)
  refine ⟨?_, ?_, ?_, ?_⟩
  · unfold decryptArchive
    rw [if_neg hv]
  · unfold runDecrypt
    rw [if_neg hv]
  · unfold runDecrypt
    rw [if_neg hv]
  · unfold runDecrypt
    rw [if_neg hv]

/-- Witness for C3: decrypting a CryptoZip archive for password `"p"` with
password `"x"`. -/
theorem C3_witness :
    decryptArchive (encryptArchive .CryptoZip [⟨"/a", "a", [1]⟩] "p" 3) "x" =
      .error .WrongPassword ∧
    (runDecrypt [] (encryptArchive .CryptoZip [⟨"/a", "a", [1]⟩] "p" 3) "x" "d"
      none none).written = [] :=
  ⟨(C3_wrong_password_fails_closed .CryptoZip [⟨"/a", "a", [1]⟩] "p" "x" 3 [] "d"
      none none (by decide)).1,
   (C3_wrong_password_fails_closed .CryptoZip [⟨"/a", "a", [1]⟩] "p" "x" 3 [] "d"
      none none (by decide)).2.2.1⟩

/-- C8: within a single session the pushed event trace consists of integer
progress values in 0–100, monotonically non-decreasing, followed by exactly one
terminal event with no further tick after it — for encrypt and decrypt runs
alike. -/
theorem C8_progress_trace (fs : FS) (files : List FileEntry) (password : String)
    (m : EncryptionMethod) (salt : Nat) (outputPath : String) (a : Archive)
    (pw2 outputDir : String) (caE faE caD faD : Option Nat) :
    TraceOk (runEncrypt fs files password m salt outputPath caE faE).trace ∧
    TraceOk (runDecrypt fs a pw2 outputDir caD faD).trace := by
  constructor
  · unfold runEncrypt
    by_cases hv : files = [] ∨ password = ""
    · rw [if_pos hv]
      exact ⟨[], .Failed .InvalidInput, rfl, List.chain'_nil, by simp⟩
    · rw [if_neg hv]
      obtain ⟨ts, r, h1, h2, h3⟩ := encryptLoop_trace m password salt outputPath
        (totalSize files) caE faE files 0 0 [] fs (by simp)
      exact ⟨ts, r, h1, h2.tail, h3⟩
  · unfold runDecrypt
    by_cases hv : a.verifier = pw2
    · rw [if_pos hv]
      obtain ⟨ts, r, h1, h2, h3⟩ := decryptLoop_trace a.method pw2 a.salt outputDir
        (totalCipher a.entries) caD faD a.entries 0 0 [] fs (by simp)
      exact ⟨ts, r, h1, h2.tail, h3⟩
    · rw [if_neg hv]
      exact ⟨[], .Failed .WrongPassword, rfl, List.chain'_nil, by simp⟩

/-- C4: the chosen encryption method determines the output archive extension —
the offered default path ends in `.7z` and the dialog filter is `7z` for
SevenZip, and `.zip` / `zip` for Aes256 and CryptoZip. -/
theorem C4_extension_matches_method (files : List DroppedFile) (m : EncryptionMethod)
    (h : files ≠ []) :
    (m = .SevenZip →
      endsIn (defaultArchivePath files m) ".7z" ∧ filterExtensions m = ["7z"]) ∧
    ((m = .Aes256 ∨ m = .CryptoZip) →
      endsIn (defaultArchivePath files m) ".zip" ∧ filterExtensions m = ["zip"]) := by
  obtain ⟨f, rest, rfl⟩ : ∃ f rest, files = f :: rest := by
    cases files with
    | nil => exact absurd rfl h
    | cons f rest => exact ⟨f, rest, rfl⟩
  constructor
  · rintro rfl
    refine ⟨⟨(if f.isDir then lastSegment f.path else stripExt (lastSegment f.path)) ++
      "_" ++ methodLabel .SevenZip, ?_⟩, rfl⟩
    show ((if f.isDir then lastSegment f.path else stripExt (lastSegment f.path)) ++
      "_" ++ methodLabel .SevenZip ++ ".") ++ "7z" = _
    rw [String.append_assoc]
    rfl
  · rintro (rfl | rfl)
    · refine ⟨⟨(if f.isDir then lastSegment f.path else stripExt (lastSegment f.path)) ++
        "_" ++ methodLabel .Aes256, ?_⟩, rfl⟩
      show ((if f.isDir then lastSegment f.path else stripExt (lastSegment f.path)) ++
        "_" ++ methodLabel .Aes256 ++ ".") ++ "zip" = _
      rw [String.append_assoc]
      rfl
    · refine ⟨⟨(if f.isDir then lastSegment f.path else stripExt (lastSegment f.path)) ++
        "_" ++ methodLabel .CryptoZip, ?_⟩, rfl⟩
      show ((if f.isDir then lastSegment f.path else stripExt (lastSegment f.path)) ++
        "_" ++ methodLabel .CryptoZip ++ ".") ++ "zip" = _
      rw [String.append_assoc]
      rfl

/-- Witness for C4: one selected file, SevenZip gives `.7z` and Aes256 `.zip`. -/
theorem C4_witness :
    ([⟨"/tmp/report.txt", false⟩] : List DroppedFile) ≠ [] ∧
    endsIn (defaultArchivePath [⟨"/tmp/report.txt", false⟩] .SevenZip) ".7z" ∧
    endsIn (defaultArchivePath [⟨"/tmp/report.txt", false⟩] .Aes256) ".zip" :=
  ⟨by decide,
   ((C4_extension_matches_method [⟨"/tmp/report.txt", false⟩] .SevenZip
      (by decide)).1 rfl).1,
   ((C4_extension_matches_method [⟨"/tmp/report.txt", false⟩] .Aes256
      (by decide)).2 (Or.inl rfl)).1⟩

/-- C5: with an empty input list (either direction), and with an empty password
on encrypt, validation fails immediately — an error message is surfaced, the
running state is never entered, no backend command is issued and the rest of
the state is untouched; the password check does not apply to decrypt. -/
theorem C5_validation_guards (s t : UIState) (sp od : Option String)
    (be : Except String String) (bd : Except String Unit)
    (hf : s.droppedFiles = []) (ht : t.droppedFiles ≠ []) (hp : t.password = "") :
    ((encryptFiles s sp be).enteredRunning = false ∧
     (encryptFiles s sp be).invoked = false ∧
     (encryptFiles s sp be).finalState =
       { s with errorMessage := some selectFilesFirstMsg }) ∧
    ((decryptFiles s .decrypt od bd).enteredRunning = false ∧
     (decryptFiles s .decrypt od bd).invoked = false ∧
     (decryptFiles s .decrypt od bd).finalState =
       { s with errorMessage := some selectFilesFirstMsg }) ∧
    ((encryptFiles t sp be).enteredRunning = false ∧
     (encryptFiles t sp be).invoked = false ∧
     (encryptFiles t sp be).finalState =
       { t with errorMessage := some enterPasswordMsg }) ∧
    (decryptFiles t .decrypt od bd).enteredRunning = true := by
  refine ⟨?_, ?_, ?_, ?_⟩ <;>
    simp [encryptFiles, decryptFiles, hf, ht, hp]

/-- Witness for C5 at concrete states. -/
theorem C5_witness :
    (encryptFiles ⟨[], "pw", none, none, none, false, 0⟩ none (.ok "")).enteredRunning =
      false ∧
    (encryptFiles ⟨[⟨"/a", false⟩], "", none, none, none, false, 0⟩ none
      (.ok "")).enteredRunning = false ∧
    (decryptFiles ⟨[⟨"/a", false⟩], "", none, none, none, false, 0⟩ .decrypt none
      (.ok ())).enteredRunning = true :=
  ⟨((C5_validation_guards ⟨[], "pw", none, none, none, false, 0⟩
      ⟨[⟨"/a", false⟩], "", none, none, none, false, 0⟩ none none (.ok "") (.ok ())
      rfl (by decide) rfl).1).1,
   ((C5_validation_guards ⟨[], "pw", none, none, none, false, 0⟩
      ⟨[⟨"/a", false⟩], "", none, none, none, false, 0⟩ none none (.ok "") (.ok ())
      rfl (by decide) rfl).2.2.1).1,
   (C5_validation_guards ⟨[], "pw", none, none, none, false, 0⟩
      ⟨[⟨"/a", false⟩], "", none, none, none, false, 0⟩ none none (.ok "") (.ok ())
      rfl (by decide) rfl).2.2.2⟩

/-- C6 counterexample: re-adding a path that is already in the list keeps the
first occurrence's position — the code's result differs from the spec's
"last-seen order preserved" result at this input. -/
theorem C6_counterexample :
    selectFilesUpdate (selectFilesUpdate [] ["a", "b"]) ["a"] =
      [{ path := "a", isDir := false }, { path := "b", isDir := false }] ∧
    lastSeenDedupAdd (selectFilesUpdate [] ["a", "b"]) [{ path := "a", isDir := false }] =
      [{ path := "b", isDir := false }, { path := "a", isDir := false }] ∧
    selectFilesUpdate (selectFilesUpdate [] ["a", "b"]) ["a"] ≠
      lastSeenDedupAdd (selectFilesUpdate [] ["a", "b"])
        [{ path := "a", isDir := false }] := by
  decide

/-- C6 (amended): the accumulated input list is deduplicated by path with
first-seen order preserved — re-adding a path already in the list leaves the
list unchanged (the existing occurrence keeps its original position), and the
previous list is always a prefix of the new one. -/
theorem C6_amended_first_seen_dedup (prev new : List DroppedFile) (f : DroppedFile)
    (h : f.path ∈ prev.map DroppedFile.path) :
    addFiles prev (f :: new) = addFiles prev new ∧
    ∃ rest, addFiles prev new = prev ++ rest := by
  constructor
  · unfold addFiles
    congr 1
    have hc : ((prev.map fun x => x.path).contains f.path) = true := by
      simpa using h
    rw [List.filter_cons, hc]
    simp
  · exact ⟨_, rfl⟩

/-- Witness for C6 (amended): re-adding `"a"` leaves the list unchanged. -/
theorem C6_amended_witness :
    ("a" ∈ ([⟨"a", false⟩, ⟨"b", false⟩] : List DroppedFile).map DroppedFile.path) ∧
    addFiles [⟨"a", false⟩, ⟨"b", false⟩] [⟨"a", false⟩] =
      addFiles [⟨"a", false⟩, ⟨"b", false⟩] [] :=
  ⟨by decide,
   (C6_amended_first_seen_dedup [⟨"a", false⟩, ⟨"b", false⟩] [] ⟨"a", false⟩
      (by decide)).1⟩

/-- C7: on a validated start-encrypt, cancelling the output-path selection
upstream resolves the run as cancelled — no encrypt command is issued and no
error is surfaced; with an output path chosen, the command is issued and the
run resolves to success, to cancelled on the backend sentinel, or to the
backend's error. -/
theorem C7_start_encrypt_resolution (s : UIState) (be : Except String String)
    (hf : s.droppedFiles ≠ []) (hp : s.password ≠ "") :
    ((encryptFiles s none be).outcome = .cancelled ∧
     (encryptFiles s none be).invoked = false ∧
     (encryptFiles s none be).finalState.errorMessage = none) ∧
    (∀ sp : String,
      (encryptFiles s (some sp) be).invoked = true ∧
      (∀ r, be = .ok r → r ≠ cancelSentinel →
        (encryptFiles s (some sp) be).outcome = .success) ∧
      (∀ r, be = .ok r → r = cancelSentinel →
        (encryptFiles s (some sp) be).outcome = .cancelled) ∧
      (∀ e, be = .error e → e ≠ cancelSentinel →
        (encryptFiles s (some sp) be).outcome = .failure e) ∧
      (∀ e, be = .error e → e = cancelSentinel →
        (encryptFiles s (some sp) be).outcome = .cancelled)) := by
  constructor
  · simp [encryptFiles, hf, hp]
  · intro sp
    refine ⟨?_, ?_, ?_, ?_, ?_⟩
    · cases be with
      | ok r =>
        by_cases hr : r = cancelSentinel <;> simp [encryptFiles, hf, hp, hr]
      | error e =>
        by_cases he : e = cancelSentinel <;> simp [encryptFiles, hf, hp, he]
    · rintro r rfl hr
      simp [encryptFiles, hf, hp, hr]
    · rintro r rfl rfl
      simp [encryptFiles, hf, hp]
    · rintro e rfl he
      simp [encryptFiles, hf, hp, he]
    · rintro e rfl rfl
      simp [encryptFiles, hf, hp]

/-- Witness for C7: concrete state, upstream cancel and a successful save. -/
theorem C7_witness :
    (encryptFiles ⟨[⟨"/a", false⟩], "pw", none, none, none, false, 0⟩ none
      (.ok "")).outcome = .cancelled ∧
    (encryptFiles ⟨[⟨"/a", false⟩], "pw", none, none, none, false, 0⟩ (some "/out.zip")
      (.ok "")).outcome = .success :=
  ⟨((C7_start_encrypt_resolution ⟨[⟨"/a", false⟩], "pw", none, none, none, false, 0⟩
      (.ok "") (by decide) (by decide)).1).1,
   (((C7_start_encrypt_resolution ⟨[⟨"/a", false⟩], "pw", none, none, none, false, 0⟩
      (.ok "") (by decide) (by decide)).2 "/out.zip").2.1 "" rfl (by decide))⟩

/-- C9: after every encrypt or decrypt run that passed validation — whether it
completed, failed or was cancelled (upstream or via the backend sentinel) — the
`finally` blocks reset the session: `isEncrypting` cleared, `progress` reset to
0, dropped-file list emptied.  An encrypt run requires a non-empty password to
pass validation; a decrypt run (`decryptFiles` is dispatched with
`mode = decrypt`) is covered for every password, including the empty one. -/
theorem C9_finally_resets_state (s t : UIState) (sp od : Option String)
    (be : Except String String) (bd : Except String Unit)
    (hf : s.droppedFiles ≠ []) (hp : s.password ≠ "") (htf : t.droppedFiles ≠ []) :
    ((encryptFiles s sp be).finalState.isEncrypting = false ∧
     (encryptFiles s sp be).finalState.progress = 0 ∧
     (encryptFiles s sp be).finalState.droppedFiles = []) ∧
    ((decryptFiles t .decrypt od bd).finalState.isEncrypting = false ∧
     (decryptFiles t .decrypt od bd).finalState.progress = 0 ∧
     (decryptFiles t .decrypt od bd).finalState.droppedFiles = []) := by
  constructor <;> simp [encryptFiles, decryptFiles, hf, hp, htf]

/-- Witness for C9: a backend-failed encrypt run and an empty-password decrypt
run both reset the state. -/
theorem C9_witness :
    (encryptFiles ⟨[⟨"/a", false⟩], "pw", none, none, none, false, 0⟩ (some "/out.zip")
      (.error "disk full")).finalState.droppedFiles = [] ∧
    (decryptFiles ⟨[⟨"/a", false⟩], "", none, none, none, false, 0⟩ .decrypt none
      (.ok ())).finalState.progress = 0 :=
  ⟨((C9_finally_resets_state ⟨[⟨"/a", false⟩], "pw", none, none, none, false, 0⟩
      ⟨[⟨"/a", false⟩], "", none, none, none, false, 0⟩ (some "/out.zip") none
      (.error "disk full") (.ok ()) (by decide) (by decide) (by decide)).1).2.2,
   ((C9_finally_resets_state ⟨[⟨"/a", false⟩], "pw", none, none, none, false, 0⟩
      ⟨[⟨"/a", false⟩], "", none, none, none, false, 0⟩ (some "/out.zip") none
      (.error "disk full") (.ok ()) (by decide) (by decide) (by decide)).2).2.1⟩

/-- C10: when drag-drop metadata retrieval fails, every dropped path is
classified with `isDir = false` (paths preserved in order); when it succeeds,
the backend's classification is used unchanged. -/
theorem C10_drop_metadata_fallback (paths : List String)
    (meta : List DroppedFile) (err : String) :
    handleDrop paths (.ok meta) = meta ∧
    (handleDrop paths (.error err)).map DroppedFile.path = paths ∧
    (handleDrop paths (.error err)).all (fun f => !f.isDir) = true := by
  refine ⟨rfl, ?_, ?_⟩
  · simp only [handleDrop, List.map_map]
    rw [show (DroppedFile.path ∘ fun p => ({ path := p, isDir := false } : DroppedFile)) =
      id from rfl, List.map_id]
  · simp [handleDrop, List.all_eq_true]

end EaZip
